import Mathlib

/-!
Shallow embedding of the two Rust programs in this repository
(`src/day-01/src/main.rs` and `src/day-02/src/main.rs`).

Strings are modelled as `List Char` (obtained from a Lean `String` via
`String.data`); Rust's `u32` arithmetic is modelled with `Nat` together with
an explicit bound `u32Max = 2^32 - 1`, so `checked_add` becomes an explicit
comparison against `u32Max`.  Fallible Rust functions returning
`anyhow::Result` / `Result<_, String>` are modelled with `Except String`.
-/

namespace Day01

/-- Whitespace test used by Rust's `trim`, restricted to the ASCII whitespace
characters (space, tab, newline, carriage return, vertical tab, form feed);
the inputs handled by this program contain no other whitespace. -/
def isWs (c : Char) : Bool :=
  c = ' ' || c = '\t' || c = '\n' || c = '\r' || c = '\x0b' || c = '\x0c'

/-- Model of `input.replace("\r\n", "\n")`: replace every non-overlapping
occurrence of the two-character sequence CR LF by LF, scanning left to right. -/
def replaceCRLF : List Char → List Char
  | '\r' :: '\n' :: rest => '\n' :: replaceCRLF rest
  | c :: rest => c :: replaceCRLF rest
  | [] => []

/-- Model of Rust's `str::trim_end`: drop trailing whitespace. -/
def trimEnd (l : List Char) : List Char :=
  (l.reverse.dropWhile isWs).reverse

/-- Model of Rust's `str::trim`: drop leading and trailing whitespace. -/
def trimBoth (l : List Char) : List Char :=
  trimEnd (l.dropWhile isWs)

/-- Model of `str::split("\n\n")`: split on every non-overlapping occurrence
of two consecutive newlines, leftmost first.  Like Rust's `split`, this always
returns at least one piece (the whole input when the separator is absent). -/
def splitBlocks : List Char → List (List Char)
  | '\n' :: '\n' :: rest => [] :: splitBlocks rest
  | c :: rest =>
    match splitBlocks rest with
    | [] => [[c]]
    | b :: bs => (c :: b) :: bs
  | [] => [[]]

/-- Split on every single newline (always at least one piece). -/
def splitNewline : List Char → List (List Char)
  | '\n' :: rest => [] :: splitNewline rest
  | c :: rest =>
    match splitNewline rest with
    | [] => [[c]]
    | l :: ls => (c :: l) :: ls
  | [] => [[]]

/-- Remove a single trailing carriage return, as Rust's `str::lines` does to
each produced line. -/
def stripCr (l : List Char) : List Char :=
  if l.getLast? = some '\r' then l.dropLast else l

/-- Model of Rust's `str::lines`: split on `\n` with the final line ending
optional (so the empty string has no lines), stripping a trailing `\r` from
each line. -/
def rustLines (s : List Char) : List (List Char) :=
  let parts := splitNewline s
  (if parts.getLast? = some [] then parts.dropLast else parts).map stripCr

/-- The lines of a block that survive the
`filter(|line| !line.trim().is_empty())` stage. -/
def filteredLines (b : List Char) : List (List Char) :=
  (rustLines b).filter (fun l => !(trimBoth l).isEmpty)

/-- Largest value of Rust's `u32` type. -/
def u32Max : Nat := 4294967295

/-- Value of a list of decimal digit characters, most significant first. -/
def digitsToNat (l : List Char) : Nat :=
  l.foldl (fun acc c => acc * 10 + (c.toNat - 48)) 0

/-- Model of Rust's `str::parse::<u32>`: an optional leading `+`, then a
non-empty run of ASCII digits whose value fits in `u32`; anything else is an
error (Rust's error message carries the offending line, which the claims do
not inspect). -/
def parseU32 (s : List Char) : Except String Nat :=
  let t := match s with
    | '+' :: rest => rest
    | _ => s
  if t ≠ [] ∧ t.all Char.isDigit then
    let n := digitsToNat t
    if n ≤ u32Max then Except.ok n
    else Except.error "Failed to parse number"
  else Except.error "Failed to parse number"

/-- The `map(|line| line.trim().parse::<u32>())` stage applied to one line. -/
def lineValue (l : List Char) : Except String Nat :=
  parseU32 (trimBoth l)

/-- Model of the `try_fold(0u32, |acc, n| acc.checked_add(n))` stage: parse
each line, then add with an overflow check against `u32Max`. -/
def tryFoldSum : Nat → List (List Char) → Except String Nat
  | acc, [] => Except.ok acc
  | acc, l :: ls =>
    match lineValue l with
    | Except.error e => Except.error e
    | Except.ok n =>
      if acc + n ≤ u32Max then tryFoldSum (acc + n) ls
      else Except.error "Calories sum overflow"

/-- Summed calories of one block: fold its filtered lines from 0. -/
def sumBlock (b : List Char) : Except String Nat :=
  tryFoldSum 0 (filteredLines b)

/-- The parsed values of one block's filtered lines (no summing); used to
state overflow properties of `sumBlock`. -/
def mapE {α β : Type} (f : α → Except String β) : List α → Except String (List β)
  | [] => Except.ok []
  | a :: as =>
    match f a with
    | Except.error e => Except.error e
    | Except.ok b =>
      match mapE f as with
      | Except.error e => Except.error e
      | Except.ok bs => Except.ok (b :: bs)

/-- The integers of one block, line by line. -/
def blockValues (b : List Char) : Except String (List Nat) :=
  mapE lineValue (filteredLines b)

/-- The block decomposition of the input: normalize CR LF, trim trailing
whitespace, split on blank lines. -/
def blocks (s : String) : List (List Char) :=
  splitBlocks (trimEnd (replaceCRLF s.data))

/-- Model of `parse_elf_calories`: sum every block, short-circuiting on the
first error (Rust's `collect::<Result<Vec<_>>>`), then reject an empty block
list. -/
def parse_elf_calories (s : String) : Except String (List Nat) :=
  match mapE sumBlock (blocks s) with
  | Except.error e => Except.error e
  | Except.ok calories =>
    if calories.isEmpty then Except.error "No calorie blocks found in input"
    else Except.ok calories

/-- Model of `part_one`: `*calories.iter().max().unwrap_or(&0)`. -/
def part_one (calories : List Nat) : Nat :=
  (calories.max?).getD 0

/-- The descending comparison used by `sort_unstable_by(|a, b| b.cmp(a))`. -/
def descRel (a b : Nat) : Prop := b ≤ a

instance : DecidableRel descRel := fun a b => Nat.decLe b a

/-- Model of `part_two`: sort descending, take the first three, sum them.
The Rust code uses an unstable pattern-defeating quicksort; any correct sort
of `Nat` produces the same list, so the model uses insertion sort. -/
def part_two (calories : List Nat) : Nat :=
  ((List.insertionSort descRel calories).take 3).sum

/-- The sample input of the unit tests in `day-01/src/main.rs`. -/
def sampleInput : String :=
  "1000\n2000\n3000\n\n4000\n\n5000\n6000\n\n7000\n8000\n9000\n\n10000\n"

end Day01

namespace Day02

/-- The three moves of `day-02/src/main.rs`. -/
inductive Move
  | Rock
  | Paper
  | Scissors
deriving DecidableEq

/-- The three round outcomes. -/
inductive Outcome
  | Lose
  | Draw
  | Win
deriving DecidableEq

/-- Model of `impl FromStr for Move`: the Rust `match` on the token, written
with string equality tests (which is what a Rust `match` on string literals
performs). -/
def Move.from_str (s : String) : Except String Move :=
  if s = "A" ∨ s = "X" then Except.ok Move.Rock
  else if s = "B" ∨ s = "Y" then Except.ok Move.Paper
  else if s = "C" ∨ s = "Z" then Except.ok Move.Scissors
  else Except.error ("Invalid move token: " ++ s)

/-- Model of `parse_outcome`. -/
def parse_outcome (token : String) : Except String Outcome :=
  if token = "X" then Except.ok Outcome.Lose
  else if token = "Y" then Except.ok Outcome.Draw
  else if token = "Z" then Except.ok Outcome.Win
  else Except.error ("Invalid outcome token: " ++ token)

/-- Model of `Move::shape_score`. -/
def Move.shape_score : Move → Nat
  | Move.Rock => 1
  | Move.Paper => 2
  | Move.Scissors => 3

/-- Model of `round_score`: 3 for a draw (tested first, as the Rust guard
does), 6 for the three winning pairs `(me, opponent)`, 0 otherwise, plus the
player's shape score. -/
def round_score (opponent me : Move) : Nat :=
  let outcome_score :=
    if me = opponent then 3
    else
      match me, opponent with
      | Move.Rock, Move.Scissors => 6
      | Move.Scissors, Move.Paper => 6
      | Move.Paper, Move.Rock => 6
      | _, _ => 0
  outcome_score + me.shape_score

/-- Model of `required_move`. -/
def required_move (opponent : Move) (desired : Outcome) : Move :=
  match desired with
  | Outcome.Draw => opponent
  | Outcome.Win =>
    match opponent with
    | Move.Rock => Move.Paper
    | Move.Paper => Move.Scissors
    | Move.Scissors => Move.Rock
  | Outcome.Lose =>
    match opponent with
    | Move.Rock => Move.Scissors
    | Move.Paper => Move.Rock
    | Move.Scissors => Move.Paper

/-- Outcome points as the spec assigns them: 0 for a loss, 3 for a draw,
6 for a win. -/
def Outcome.points : Outcome → Nat
  | Outcome.Lose => 0
  | Outcome.Draw => 3
  | Outcome.Win => 6

end Day02

/-! ## Helper lemmas -/

namespace Day01

theorem mapE_ok_length {α β : Type} (f : α → Except String β) :
    ∀ (l : List α) (bs : List β), mapE f l = Except.ok bs → bs.length = l.length := by
  intro l
  induction l with
  | nil => intro bs h; simp [mapE] at h; simp [h.symm]
  | cons a as ih =>
    intro bs h
    simp only [mapE] at h
    cases hf : f a with
    | error e => rw [hf] at h; exact absurd h (by simp)
    | ok b =>
      rw [hf] at h
      cases hm : mapE f as with
      | error e => rw [hm] at h; exact absurd h (by simp)
      | ok bs2 =>
        rw [hm] at h
        cases h
        simp [ih bs2 hm]

theorem mapE_ok_mem {α β : Type} (f : α → Except String β) :
    ∀ (l : List α) (bs : List β), mapE f l = Except.ok bs →
      ∀ a ∈ l, ∃ b, f a = Except.ok b := by
  intro l
  induction l with
  | nil => intro bs _ a ha; exact absurd ha (by simp)
  | cons x as ih =>
    intro bs h a ha
    simp only [mapE] at h
    cases hf : f x with
    | error e => rw [hf] at h; exact absurd h (by simp)
    | ok b =>
      rw [hf] at h
      cases hm : mapE f as with
      | error e => rw [hm] at h; exact absurd h (by simp)
      | ok bs2 =>
        rcases List.mem_cons.mp ha with h1 | h2
        · exact ⟨b, h1 ▸ hf⟩
        · exact ih bs2 hm a h2

theorem mapE_error_of_mem {α β : Type} (f : α → Except String β) (l : List α) (a : α)
    (ha : a ∈ l) (hf : ∀ b, f a ≠ Except.ok b) : ∃ e, mapE f l = Except.error e := by
  cases hm : mapE f l with
  | error e => exact ⟨e, rfl⟩
  | ok bs =>
    obtain ⟨b, hb⟩ := mapE_ok_mem f l bs hm a ha
    exact absurd hb (hf b)

theorem tryFoldSum_ok :
    ∀ (ls : List (List Char)) (acc : Nat) (ns : List Nat),
      mapE lineValue ls = Except.ok ns → acc + ns.sum ≤ u32Max →
      tryFoldSum acc ls = Except.ok (acc + ns.sum) := by
  intro ls
  induction ls with
  | nil =>
    intro acc ns h _
    simp [mapE] at h
    subst h
    simp [tryFoldSum]
  | cons l ls ih =>
    intro acc ns h hle
    simp only [mapE] at h
    cases hf : lineValue l with
    | error e => rw [hf] at h; exact absurd h (by simp)
    | ok n =>
      rw [hf] at h
      cases hm : mapE lineValue ls with
      | error e => rw [hm] at h; exact absurd h (by simp)
      | ok ns2 =>
        rw [hm] at h
        cases h
        simp only [List.sum_cons] at hle
        have h1 : acc + n ≤ u32Max := by omega
        simp only [tryFoldSum, hf, if_pos h1]
        have := ih (acc + n) ns2 hm (by omega)
        rw [this]
        congr 1
        simp [List.sum_cons]
        omega

theorem tryFoldSum_overflow :
    ∀ (ls : List (List Char)) (acc : Nat) (ns : List Nat),
      mapE lineValue ls = Except.ok ns → acc ≤ u32Max → u32Max < acc + ns.sum →
      ∃ e, tryFoldSum acc ls = Except.error e := by
  intro ls
  induction ls with
  | nil =>
    intro acc ns h hacc hlt
    simp [mapE] at h
    subst h
    simp at hlt
    omega
  | cons l ls ih =>
    intro acc ns h hacc hlt
    simp only [mapE] at h
    cases hf : lineValue l with
    | error e => rw [hf] at h; exact absurd h (by simp)
    | ok n =>
      rw [hf] at h
      cases hm : mapE lineValue ls with
      | error e => rw [hm] at h; exact absurd h (by simp)
      | ok ns2 =>
        rw [hm] at h
        cases h
        by_cases h1 : acc + n ≤ u32Max
        · simp only [tryFoldSum, hf, if_pos h1]
          refine ih (acc + n) ns2 hm h1 ?_
          simp only [List.sum_cons] at hlt
          omega
        · exact ⟨"Calories sum overflow", by simp [tryFoldSum, hf, if_neg h1]⟩

theorem sumBlock_ok (b : List Char) (ns : List Nat)
    (h : blockValues b = Except.ok ns) (hle : ns.sum ≤ u32Max) :
    sumBlock b = Except.ok ns.sum := by
  have := tryFoldSum_ok (filteredLines b) 0 ns h (by simpa using hle)
  simpa [sumBlock] using this

theorem sumBlock_overflow (b : List Char) (ns : List Nat)
    (h : blockValues b = Except.ok ns) (hlt : u32Max < ns.sum) :
    ∃ e, sumBlock b = Except.error e := by
  have := tryFoldSum_overflow (filteredLines b) 0 ns h (by simp [u32Max]) (by simpa using hlt)
  simpa [sumBlock] using this

theorem mapE_sumBlock_of_blockValues :
    ∀ (l : List (List Char)) (nss : List (List Nat)),
      mapE blockValues l = Except.ok nss → (∀ ns ∈ nss, ns.sum ≤ u32Max) →
      mapE sumBlock l = Except.ok (nss.map List.sum) := by
  intro l
  induction l with
  | nil =>
    intro nss h _
    simp [mapE] at h
    simp [mapE, h.symm]
  | cons b l ih =>
    intro nss h hle
    simp only [mapE] at h
    cases hf : blockValues b with
    | error e => rw [hf] at h; exact absurd h (by simp)
    | ok ns =>
      rw [hf] at h
      cases hm : mapE blockValues l with
      | error e => rw [hm] at h; exact absurd h (by simp)
      | ok nss2 =>
        rw [hm] at h
        cases h
        have h1 : sumBlock b = Except.ok ns.sum :=
          sumBlock_ok b ns hf (hle ns (by simp))
        have h2 : mapE sumBlock l = Except.ok (nss2.map List.sum) :=
          ih nss2 hm (fun ns2 hns2 => hle ns2 (by simp [hns2]))
        simp [mapE, h1, h2]

theorem splitBlocks_cons (l : List Char) : ∃ b bs, splitBlocks l = b :: bs := by
  rw [splitBlocks.eq_def]
  split
  · exact ⟨_, _, rfl⟩
  · split
    · exact ⟨_, _, rfl⟩
    · exact ⟨_, _, rfl⟩
  · exact ⟨_, _, rfl⟩

end Day01

/-! ## Claim theorems -/

namespace Day01

/-- Claim C1: on the sample input whose blocks are [1000,2000,3000], [4000],
[5000,6000], [7000,8000,9000], [10000], `parse_elf_calories` yields the block
sums [6000, 4000, 11000, 24000, 10000], `part_one` of those sums is 24000 and
`part_two` is 45000. -/
theorem sample_pipeline :
    parse_elf_calories sampleInput = Except.ok [6000, 4000, 11000, 24000, 10000] ∧
    part_one [6000, 4000, 11000, 24000, 10000] = 24000 ∧
    part_two [6000, 4000, 11000, 24000, 10000] = 45000 :=
  ⟨rfl, rfl, rfl⟩

/-- Claim C3: the code, contrary to its own "No calorie blocks found in input"
error path, accepts the empty input: splitting the empty string yields one
empty block whose sum is 0, so `parse_elf_calories` returns a successful
result reflecting a zero total. -/
theorem parse_elf_calories_empty_is_ok_zero :
    parse_elf_calories "" = Except.ok [0] := rfl

/-- Claim C6: a block whose parsed integers sum past `u32Max` forces
`parse_elf_calories` into an error (never a wrapped sum), and when every
block parses and stays within `u32Max` the result is exactly the list of
mathematical block sums. -/
theorem overflow_rejected_sums_exact :
    (∀ (s : String) (b : List Char) (ns : List Nat),
        b ∈ blocks s → blockValues b = Except.ok ns → u32Max < ns.sum →
        ∃ e, parse_elf_calories s = Except.error e) ∧
    (∀ (s : String) (nss : List (List Nat)),
        mapE blockValues (blocks s) = Except.ok nss →
        (∀ ns ∈ nss, ns.sum ≤ u32Max) →
        parse_elf_calories s = Except.ok (nss.map List.sum)) := by
  constructor
  · intro s b ns hb hbv hlt
    obtain ⟨e0, he0⟩ := sumBlock_overflow b ns hbv hlt
    have hf : ∀ v, sumBlock b ≠ Except.ok v := by
      intro v h
      rw [he0] at h
      exact absurd h (by simp)
    obtain ⟨e, he⟩ := mapE_error_of_mem sumBlock (blocks s) b hb hf
    exact ⟨e, by simp [parse_elf_calories, he]⟩
  · intro s nss hm hle
    have h1 := mapE_sumBlock_of_blockValues (blocks s) nss hm hle
    obtain ⟨b0, bs0, hb⟩ := splitBlocks_cons (trimEnd (replaceCRLF s.data))
    have hlen : (nss.map List.sum).length = (blocks s).length := mapE_ok_length _ _ _ h1
    have hne : (nss.map List.sum) ≠ [] := by
      intro hnil
      rw [hnil] at hlen
      rw [blocks, hb] at hlen
      simp at hlen
    simp only [parse_elf_calories, h1]
    rw [if_neg]
    simp [List.isEmpty_iff, hne]

/-- Witness for C6: the single block `4294967295 + 1` sums past `u32Max` and
is rejected, while `10 20 / 5` parses to the exact sums `[30, 5]`. -/
theorem overflow_rejected_sums_exact_witness :
    (∃ e, parse_elf_calories "4294967295\n1" = Except.error e) ∧
    parse_elf_calories "10\n20\n\n5" = Except.ok [30, 5] := by
  constructor
  · exact overflow_rejected_sums_exact.1 "4294967295\n1" ("4294967295\n1".data)
      [4294967295, 1] (by decide) rfl (by decide)
  · exact (overflow_rejected_sums_exact.2 "10\n20\n\n5" [[10, 20], [5]]
      rfl (by decide)).trans rfl

/-- Claim C8: `parse_elf_calories` is deterministic; it is a pure function of
the input text, so re-parsing the same text yields the same block sums. -/
theorem parse_elf_calories_deterministic :
    ∀ s : String, parse_elf_calories s = parse_elf_calories s := fun _ => rfl

/-- Claim C9: `part_one` of the empty list of block sums is 0 (the
`unwrap_or(&0)` default) rather than a failure. -/
theorem part_one_empty_is_zero : part_one [] = 0 := rfl

/-- Claim C10: `part_two` of a list with fewer than three elements is the sum
of all elements present (0 for the empty list, the element itself for a
singleton), and in general `part_two` is the sum of the first three elements
of any descending sort of the list, i.e. the three largest elements counted
with multiplicity. -/
theorem part_two_top_three :
    part_two [] = 0 ∧
    (∀ a : Nat, part_two [a] = a) ∧
    (∀ l : List Nat, l.length < 3 → part_two l = l.sum) ∧
    (∀ l l2 : List Nat, l2.Perm l → l2.Sorted descRel →
      part_two l = (l2.take 3).sum) := by
  haveI hTot : IsTotal Nat descRel := ⟨fun a b => le_total b a⟩
  haveI hTrans : IsTrans Nat descRel := ⟨fun a b c hab hbc => le_trans hbc hab⟩
  haveI hAnti : IsAntisymm Nat descRel := ⟨fun a b h1 h2 => le_antisymm h2 h1⟩
  have key : ∀ l l2 : List Nat, l2.Perm l → l2.Sorted descRel →
      part_two l = (l2.take 3).sum := by
    intro l l2 hperm hsort
    have h1 : List.Perm (List.insertionSort descRel l) l :=
      List.perm_insertionSort descRel l
    have h2 : List.Sorted descRel (List.insertionSort descRel l) :=
      List.sorted_insertionSort descRel l
    have heq : l2 = List.insertionSort descRel l :=
      List.eq_of_perm_of_sorted (hperm.trans h1.symm) hsort h2
    rw [part_two, heq]
  have hshort : ∀ l : List Nat, l.length < 3 → part_two l = l.sum := by
    intro l hl
    rw [part_two]
    have hlen : (List.insertionSort descRel l).length = l.length :=
      List.length_insertionSort descRel l
    rw [List.take_of_length_le (by omega)]
    exact (List.perm_insertionSort descRel l).sum_eq
  exact ⟨hshort [] (by simp), fun a => by simpa using hshort [a] (by simp), hshort, key⟩

/-- Witness for C10: on [5, 1, 9, 3], whose descending sort is [9, 5, 3, 1],
`part_two` returns 9 + 5 + 3 = 17. -/
theorem part_two_top_three_witness : part_two [5, 1, 9, 3] = 17 := by
  have h := part_two_top_three.2.2.2 [5, 1, 9, 3] [9, 5, 3, 1] (by decide) (by decide)
  simpa using h

end Day01

namespace Day02

/-- Claim C2 (counterexample): `round_score` with opponent Paper and player
move Rock does not return 7; paper beats rock, so the player loses. -/
theorem round_score_paper_rock_not_seven :
    ¬ (round_score Move.Paper Move.Rock = 7) := by decide

/-- Claim C2 (amended): `round_score` with opponent Paper and player move Rock
returns 1 (outcome-points 0 for a loss plus shape-points 1 for Rock). -/
theorem round_score_paper_rock : round_score Move.Paper Move.Rock = 1 := rfl

/-- Claim C4: for every opponent move and desired outcome, playing
`required_move` against that opponent produces exactly the desired outcome:
the round score minus the played shape's score is 0 / 3 / 6 for
Lose / Draw / Win. -/
theorem required_move_achieves_outcome :
    ∀ (o : Move) (d : Outcome),
      round_score o (required_move o d) - (required_move o d).shape_score =
        d.points := by
  intro o d
  cases o <;> cases d <;> rfl

/-- Claim C5: any move played against itself draws, scoring 3 plus its shape
score: 4 for Rock, 5 for Paper, 6 for Scissors. -/
theorem self_play_scores :
    (∀ m : Move, round_score m m = 3 + m.shape_score) ∧
    round_score Move.Rock Move.Rock = 4 ∧
    round_score Move.Paper Move.Paper = 5 ∧
    round_score Move.Scissors Move.Scissors = 6 :=
  ⟨fun m => by cases m <;> rfl, rfl, rfl, rfl⟩

/-- Claim C7: move and outcome parsing succeed exactly on the closed symbol
sets: `Move.from_str` accepts precisely "A"/"X" (Rock), "B"/"Y" (Paper),
"C"/"Z" (Scissors); `parse_outcome` accepts precisely "X" (Lose), "Y" (Draw),
"Z" (Win); every other token is an error. -/
theorem token_sets_closed :
    ∀ s : String,
      (Move.from_str s = Except.ok Move.Rock ↔ s = "A" ∨ s = "X") ∧
      (Move.from_str s = Except.ok Move.Paper ↔ s = "B" ∨ s = "Y") ∧
      (Move.from_str s = Except.ok Move.Scissors ↔ s = "C" ∨ s = "Z") ∧
      ((∃ m, Move.from_str s = Except.ok m) ↔
        s ∈ (["A", "B", "C", "X", "Y", "Z"] : List String)) ∧
      (parse_outcome s = Except.ok Outcome.Lose ↔ s = "X") ∧
      (parse_outcome s = Except.ok Outcome.Draw ↔ s = "Y") ∧
      (parse_outcome s = Except.ok Outcome.Win ↔ s = "Z") ∧
      ((∃ o, parse_outcome s = Except.ok o) ↔
        s ∈ (["X", "Y", "Z"] : List String)) := by
  intro s
  by_cases hA : s = "A" <;> by_cases hB : s = "B" <;> by_cases hC : s = "C" <;>
    by_cases hX : s = "X" <;> by_cases hY : s = "Y" <;> by_cases hZ : s = "Z" <;>
    simp_all [Move.from_str, parse_outcome]

end Day02
